import Mathlib

/-!
Verification of the content-to-page resolution pipeline of the
`danielmackay/personal-blog` repository (a Gatsby-based static blog).

The pipeline itself (Content Source Scanner, Content Transformer and Page
Resolver) is delegated by the repository to the framework and is configured
in `gatsby-config.js`; the repository holds its configuration, its content
files and its React presentational components.  Following the repository's
specification document, the pipeline stages are modelled here as executable
Lean functions, and the React `Social` component (present in two variants
in the source tree) is modelled as an HTML-tree producing function.
-/

namespace Blog

/-! ## Character and list utilities -/

/-- Boolean test that `pre` is a prefix of the first list. -/
def startsWithL : List Char → List Char → Bool
  | _, [] => true
  | [], _ :: _ => false
  | c :: cs, d :: ds => (c = d) && startsWithL cs ds

/-- Boolean test that `suf` is a suffix of `l`. -/
def endsWithL (l suf : List Char) : Bool :=
  startsWithL l.reverse suf.reverse

/-- Boolean test that `needle` occurs contiguously inside `hay`. -/
def containsSub : List Char → List Char → Bool
  | [], needle => startsWithL [] needle
  | c :: t, needle => startsWithL (c :: t) needle || containsSub t needle

/-- String-level contiguous containment test. -/
def containsSubS (needle hay : String) : Bool :=
  containsSub hay.toList needle.toList

/-- Split a character list on a separator character; the separator is dropped. -/
def splitOnChar (sep : Char) : List Char → List (List Char)
  | [] => [[]]
  | c :: cs =>
    match splitOnChar sep cs with
    | [] => if c = sep then [[], []] else [[c]]
    | h :: t => if c = sep then [] :: h :: t else (c :: h) :: t

/-- The double-quote character. -/
def quoteChar : Char := Char.ofNat 34

/-- Remove spaces from both ends of a character list. -/
def trimChars (l : List Char) : List Char :=
  ((l.dropWhile (fun c => c = ' ')).reverse.dropWhile (fun c => c = ' ')).reverse

/-- Remove one pair of surrounding double quotes, when present. -/
def stripQuotes (l : List Char) : List Char :=
  match l with
  | c :: rest =>
    if c = quoteChar ∧ rest.getLast? = some quoteChar then rest.dropLast else l
  | [] => l

/-- Total lexicographic order (by character code) on character lists. -/
def listLe : List Char → List Char → Bool
  | [], _ => true
  | _ :: _, [] => false
  | a :: as, b :: bs =>
    decide (a.toNat < b.toNat) || (decide (a.toNat = b.toNat) && listLe as bs)

/-! ## Slug normalization (Page Resolver, modelled from the spec) -/

/-- Modelled from the spec: the Page Resolver's lowercasing step of slug
normalization; the resolver itself is framework code absent from the
repository source tree.  Maps an ASCII uppercase letter to its lowercase
counterpart and leaves every other character unchanged. -/
def lowerChar (c : Char) : Char :=
  if 65 ≤ c.toNat ∧ c.toNat ≤ 90 then Char.ofNat (c.toNat + 32) else c

/-- Modelled from the spec: a character allowed in a normalized slug —
lowercase ASCII letter, digit, hyphen, or the path separator. -/
def allowedChar (c : Char) : Bool :=
  decide ((97 ≤ c.toNat ∧ c.toNat ≤ 122) ∨ (48 ≤ c.toNat ∧ c.toNat ≤ 57) ∨
    c.toNat = 45 ∨ c.toNat = 47)

/-- Drop the last `n` characters. -/
def stripSuffixN (l : List Char) (n : Nat) : List Char :=
  l.take (l.length - n)

/-- Modelled from the spec: strip the accepted extension from a relative
path; an `index` file stands for its directory, so a trailing `/index.md`
or `/index.mdx` is dropped whole. -/
def stripIndexExt (l : List Char) : List Char :=
  if endsWithL l ("/index.mdx".toList) then stripSuffixN l 10
  else if endsWithL l ("/index.md".toList) then stripSuffixN l 9
  else if endsWithL l (".mdx".toList) then stripSuffixN l 4
  else if endsWithL l (".md".toList) then stripSuffixN l 3
  else l

/-- Collapse every run of consecutive path separators to a single one. -/
def collapseSlashes : List Char → List Char
  | [] => []
  | [c] => [c]
  | a :: b :: rest =>
    if a = '/' ∧ b = '/' then collapseSlashes (b :: rest)
    else a :: collapseSlashes (b :: rest)

/-- Holds when the list has no two adjacent path separators. -/
def noSlashRun : List Char → Bool
  | a :: b :: rest => !(decide (a = '/') && decide (b = '/')) && noSlashRun (b :: rest)
  | _ => true

/-- Modelled from the spec: the Page Resolver's pure slug normalization —
lowercase, strip extension, strip disallowed characters, collapse path
separator runs. -/
def normalizeSlugL (l : List Char) : List Char :=
  collapseSlashes ((stripIndexExt (l.map lowerChar)).filter allowedChar)

/-- Modelled from the spec: slug derivation as a pure function of the
relative path. -/
def slugOf (p : String) : String :=
  String.mk (normalizeSlugL p.toList)

/-! ## Dates -/

/-- Numeric value of a nonempty all-digit character list. -/
def digitsVal (l : List Char) : Option Nat :=
  if l ≠ [] ∧ l.all (fun c => decide (48 ≤ c.toNat ∧ c.toNat ≤ 57)) then
    some (l.foldl (fun a c => a * 10 + (c.toNat - 48)) 0)
  else none

/-- Modelled from the spec: coercion of a front-matter `date` value, an
ISO-8601 `YYYY-MM-DD` string, to a single comparable key; `none` when the
value is unparsable. -/
def parseDate (s : String) : Option Nat :=
  match splitOnChar '-' s.toList with
  | [y, m, d] =>
    if y.length = 4 ∧ m.length = 2 ∧ d.length = 2 then
      match digitsVal y, digitsVal m, digitsVal d with
      | some yv, some mv, some dv => some (yv * 10000 + mv * 100 + dv)
      | _, _, _ => none
    else none
  | _ => none

/-! ## Data model -/

/-- Accepted content file extensions. -/
inductive Ext where
  | md
  | mdx
deriving DecidableEq

/-- Modelled from the spec: the build configuration object; its concrete
field values for this repository come from `gatsby-config.js`
(`siteMetadata` and the `gatsby-source-filesystem` path option). -/
structure Config where
  contentRoot : String
  siteTitle : String
  siteUrl : String
  excerptLength : Nat
deriving DecidableEq

/-- A raw file node emitted by the Content Source Scanner. -/
structure RawFileNode where
  absolutePath : String
  relativePath : String
  extension : Ext
  rawBytes : String
deriving DecidableEq

/-- Parsed front matter of a content file. -/
structure FrontMatter where
  title : String
  date : String
  description : Option String
deriving DecidableEq

/-- A structured document node produced by the Content Transformer. -/
structure DocumentNode where
  id : String
  frontMatter : FrontMatter
  dateKey : Nat
  bodySource : String
  renderedHtml : String
  excerpt : String
  slug : String
  srcPath : String
deriving DecidableEq

/-- Page template names assigned by the Page Resolver. -/
inductive TemplateName where
  | BlogPost
  | StaticPage
deriving DecidableEq

/-- A routable page descriptor produced by the Page Resolver. -/
structure PageDescriptor where
  route : String
  documentId : String
  templateName : TemplateName
deriving DecidableEq

/-- Fatal error of the Content Source Scanner: the content root is missing. -/
structure ScanError where
  root : String
deriving DecidableEq

/-- Per-file error of the Content Transformer. -/
structure TransformError where
  file : String
  msg : String
deriving DecidableEq

/-- Fatal error of the Page Resolver: two files normalize to one slug. -/
structure ResolutionError where
  fileA : String
  fileB : String
deriving DecidableEq

/-! ## Content Source Scanner (modelled from the spec) -/

/-- An abstract input directory tree: whether the content root exists, and
the files under it as pairs of relative path and raw content. -/
structure FileSystem where
  rootExists : Bool
  files : List (String × String)
deriving DecidableEq

/-- Extension accepted by the scanner, from the file's relative path. -/
def acceptedExt (p : String) : Option Ext :=
  if endsWithL p.toList (".mdx".toList) then some Ext.mdx
  else if endsWithL p.toList (".md".toList) then some Ext.md
  else none

/-- Order on raw file nodes: lexicographic by relative path. -/
def nodeLe (a b : RawFileNode) : Prop :=
  listLe a.relativePath.toList b.relativePath.toList = true

instance : DecidableRel nodeLe := fun _ _ =>
  inferInstanceAs (Decidable (_ = true))

/-- Build one raw file node from a scanned file. -/
def mkRawNode (cfg : Config) (p : String) (e : Ext) (content : String) : RawFileNode :=
  { absolutePath := cfg.contentRoot ++ "/" ++ p
    relativePath := p
    extension := e
    rawBytes := content }

/-- Modelled from the spec: the Content Source Scanner — fails with a
`ScanError` when the root is missing, emits one `RawFileNode` per file with
an accepted extension, skips the rest, and sorts lexicographically by
relative path; the scanner itself is framework code (the
`gatsby-source-filesystem` plugin configured in `gatsby-config.js`) absent
from the repository source tree. -/
def scan (cfg : Config) (fs : FileSystem) : Except ScanError (List RawFileNode) :=
  if fs.rootExists then
    .ok (List.insertionSort nodeLe
      (fs.files.filterMap (fun pc =>
        (acceptedExt pc.1).map (fun e => mkRawNode cfg pc.1 e pc.2))))
  else
    .error { root := cfg.contentRoot }

/-! ## Content Transformer (modelled from the spec) -/

/-- The `---` front-matter delimiter line. -/
def fmMarker : List Char := ['-', '-', '-']

/-- Parse one `key: value` front-matter line; values lose surrounding
spaces and one pair of double quotes. -/
def parseKVLine (l : List Char) : Option (String × String) :=
  let key := l.takeWhile (fun c => c ≠ ':')
  match l.dropWhile (fun c => c ≠ ':') with
  | _ :: v => some (String.mk (trimChars key), String.mk (stripQuotes (trimChars v)))
  | [] => none

/-- Modelled from the spec: split the leading front-matter block (delimited
by `---` lines at file start) from the body; a file with no well-formed
leading block yields an empty key-value map and the whole text as body. -/
def parseFM (raw : String) : List (String × String) × String :=
  match splitOnChar '\n' raw.toList with
  | first :: rest =>
    if first = fmMarker then
      let fmLines := rest.takeWhile (fun ln => ln ≠ fmMarker)
      match rest.dropWhile (fun ln => ln ≠ fmMarker) with
      | _ :: body => (fmLines.filterMap parseKVLine, String.mk (List.intercalate ['\n'] body))
      | [] => ([], raw)
    else ([], raw)
  | [] => ([], raw)

/-- Render one Markdown line: ATX headings become heading elements, blank
lines stay blank, anything else becomes a paragraph. -/
def renderLine (l : List Char) : List Char :=
  if startsWithL l ("### ".toList) then
    ("<h3>".toList) ++ l.drop 4 ++ ("</h3>".toList)
  else if startsWithL l ("## ".toList) then
    ("<h2>".toList) ++ l.drop 3 ++ ("</h2>".toList)
  else if startsWithL l ("# ".toList) then
    ("<h1>".toList) ++ l.drop 2 ++ ("</h1>".toList)
  else if l = [] then []
  else ("<p>".toList) ++ l ++ ("</p>".toList)

/-- Modelled from the spec: the Markdown renderer (an external collaborator,
the `gatsby-transformer-remark` plugin configured in `gatsby-config.js`),
reduced to line-wise rendering of headings and paragraphs. -/
def renderMarkdown (body : String) : String :=
  String.mk (List.intercalate ['\n'] ((splitOnChar '\n' body.toList).map renderLine))

/-- Plain-text rendering of a Markdown body: heading markers are dropped
and the nonblank lines are joined with single spaces. -/
def plainTextOf (body : String) : String :=
  String.mk (List.intercalate [' ']
    (((splitOnChar '\n' body.toList).map
      (fun l => trimChars (l.dropWhile (fun c => c = '#')))).filter (fun l => l ≠ [])))

/-- Drop a trailing partial word: characters are removed from the end up to
and including nothing — the result ends with the last space of the input
(or is empty when the input has no space). -/
def dropTrailingWord (l : List Char) : List Char :=
  (l.reverse.dropWhile (fun c => c ≠ ' ')).reverse

/-- Modelled from the spec: word-boundary-safe truncation to at most `n`
characters — the whole text when it already fits, otherwise the `n`-prefix
when it ends at a word boundary, otherwise that prefix with its trailing
partial word removed. -/
def wordTruncateL (n : Nat) (s : List Char) : List Char :=
  if s.length ≤ n then s
  else if s.getD n ' ' = ' ' then s.take n
  else dropTrailingWord (s.take n)

/-- String-level word-boundary-safe truncation. -/
def wordTruncateS (n : Nat) (s : String) : String :=
  String.mk (wordTruncateL n s.toList)

/-- Document identifier derived deterministically from the relative path. -/
def docIdOf (p : String) : String :=
  "doc:" ++ p

/-- Modelled from the spec: the Content Transformer — parses front matter,
requires `title` and a parsable `date`, and derives rendered HTML, excerpt
and slug; a malformed file yields a `TransformError` naming that file. -/
def transform (cfg : Config) (n : RawFileNode) : Except TransformError DocumentNode :=
  match (parseFM n.rawBytes).1.lookup "title" with
  | none => .error { file := n.relativePath, msg := "missing required key: title" }
  | some title =>
    match (parseFM n.rawBytes).1.lookup "date" with
    | none => .error { file := n.relativePath, msg := "missing required key: date" }
    | some dateStr =>
      match parseDate dateStr with
      | none => .error { file := n.relativePath, msg := "unparsable date" }
      | some dk =>
        .ok { id := docIdOf n.relativePath
              frontMatter := { title := title, date := dateStr,
                               description := (parseFM n.rawBytes).1.lookup "description" }
              dateKey := dk
              bodySource := (parseFM n.rawBytes).2
              renderedHtml := renderMarkdown (parseFM n.rawBytes).2
              excerpt := wordTruncateS cfg.excerptLength (plainTextOf (parseFM n.rawBytes).2)
              slug := slugOf n.relativePath
              srcPath := n.relativePath }

/-- Modelled from the spec: run the Transformer over every scanned node,
accumulating the per-file errors across all files and keeping the
successfully transformed documents in scan order. -/
def transformAll (cfg : Config) : List RawFileNode → List TransformError × List DocumentNode
  | [] => ([], [])
  | n :: ns =>
    let rest := transformAll cfg ns
    match transform cfg n with
    | .error e => (e :: rest.1, rest.2)
    | .ok d => (rest.1, d :: rest.2)

/-! ## Page Resolver (modelled from the spec) -/

/-- Find the first pair of documents sharing a slug, reporting both source
files. -/
def findCollision : List DocumentNode → Option (String × String)
  | [] => none
  | d :: ds =>
    match ds.find? (fun e => e.slug = d.slug) with
    | some e => some (d.srcPath, e.srcPath)
    | none => findCollision ds

/-- Modelled from the spec: template assignment by document location —
files under a `blog` root get the `BlogPost` template, others
`StaticPage`. -/
def templateFor (p : String) : TemplateName :=
  if startsWithL p.toList ("blog/".toList) then TemplateName.BlogPost
  else TemplateName.StaticPage

/-- Descriptor of one document: the route is the slug. -/
def mkDescriptor (d : DocumentNode) : PageDescriptor :=
  { route := d.slug, documentId := d.id, templateName := templateFor d.srcPath }

/-- Ordering for the blog listing: strictly descending date, ties broken by
ascending slug. -/
def docBefore (a b : DocumentNode) : Prop :=
  b.dateKey < a.dateKey ∨ (a.dateKey = b.dateKey ∧ listLe a.slug.toList b.slug.toList = true)

instance : DecidableRel docBefore := fun _ _ =>
  inferInstanceAs (Decidable (_ ∨ _))

/-- Modelled from the spec: the Page Resolver — fatal `ResolutionError` on
a slug collision, otherwise the descriptors ordered by descending date with
a stable slug tie-break. -/
def resolvePages (docs : List DocumentNode) : Except ResolutionError (List PageDescriptor) :=
  match findCollision docs with
  | some ab => .error { fileA := ab.1, fileB := ab.2 }
  | none => .ok ((List.insertionSort docBefore docs).map mkDescriptor)

/-! ## Whole build (modelled from the spec) -/

/-- Outcome of one build invocation: the error report, the produced page
set when the build succeeded, and the process exit code. -/
structure BuildResult where
  scanErr : Option ScanError
  transformErrs : List TransformError
  resolveErr : Option ResolutionError
  pages : Option (List PageDescriptor)
  exitCode : Nat
deriving DecidableEq

/-- Modelled from the spec: one synchronous build — a missing root aborts
immediately; transform errors accumulate over all files; a slug collision
aborts with both files reported; a fatal error exits non-zero with no page
set. -/
def build (cfg : Config) (fs : FileSystem) : BuildResult :=
  match scan cfg fs with
  | .error e =>
    { scanErr := some e, transformErrs := [], resolveErr := none,
      pages := none, exitCode := 1 }
  | .ok nodes =>
    let errsDocs := transformAll cfg nodes
    match resolvePages errsDocs.2 with
    | .error re =>
      { scanErr := none, transformErrs := errsDocs.1, resolveErr := some re,
        pages := none, exitCode := 1 }
    | .ok pages =>
      { scanErr := none, transformErrs := errsDocs.1, resolveErr := none,
        pages := some pages, exitCode := 0 }

/-! ## The Social component (two source variants) -/

/-- A rendered HTML tree. -/
inductive Html where
  | elem : String → List (String × String) → List Html → Html
  | text : String → Html

/-- The `social` prop object consumed by the Social component, as in the
`siteMetadata.social` block of `gatsby-config.js`. -/
structure SocialProps where
  linkedIn : String
  gitHub : String
  stackOverflow : String
  twitter : String
deriving DecidableEq

/-- The Social component of the first source variant: four labelled anchors
separated by `&nbsp;|&nbsp;`, wrapped in a `div`. -/
def SocialDiv (social : SocialProps) : Html :=
  Html.elem "div" []
    [ Html.elem "a" [("href", social.linkedIn)] [Html.text "LinkedIn"]
    , Html.text "&nbsp;|&nbsp;"
    , Html.elem "a" [("href", social.gitHub)] [Html.text "GitHub"]
    , Html.text "&nbsp;|&nbsp;"
    , Html.elem "a" [("href", social.stackOverflow)] [Html.text "Stack Overflow"]
    , Html.text "&nbsp;|&nbsp;"
    , Html.elem "a" [("href", social.twitter)] [Html.text "Twitter"]
    ]

/-- The Social component of the second source variant: the same four
labelled anchors and separators, wrapped in a `span`. -/
def SocialSpan (social : SocialProps) : Html :=
  Html.elem "span" []
    [ Html.elem "a" [("href", social.linkedIn)] [Html.text "LinkedIn"]
    , Html.text "&nbsp;|&nbsp;"
    , Html.elem "a" [("href", social.gitHub)] [Html.text "GitHub"]
    , Html.text "&nbsp;|&nbsp;"
    , Html.elem "a" [("href", social.stackOverflow)] [Html.text "Stack Overflow"]
    , Html.text "&nbsp;|&nbsp;"
    , Html.elem "a" [("href", social.twitter)] [Html.text "Twitter"]
    ]

/-- The common child sequence both variants render, stated from the claim:
LinkedIn, GitHub, Stack Overflow and Twitter anchors in that order, with
the `&nbsp;|&nbsp;` separator between consecutive anchors. -/
def socialChildrenSpec (social : SocialProps) : List Html :=
  [ Html.elem "a" [("href", social.linkedIn)] [Html.text "LinkedIn"]
  , Html.text "&nbsp;|&nbsp;"
  , Html.elem "a" [("href", social.gitHub)] [Html.text "GitHub"]
  , Html.text "&nbsp;|&nbsp;"
  , Html.elem "a" [("href", social.stackOverflow)] [Html.text "Stack Overflow"]
  , Html.text "&nbsp;|&nbsp;"
  , Html.elem "a" [("href", social.twitter)] [Html.text "Twitter"]
  ]

/-! ## Concrete example inputs -/

/-- The build configuration of this repository: site metadata from
`gatsby-config.js`, content under `content`, and a default excerpt length. -/
def exampleConfig : Config :=
  { contentRoot := "content"
    siteTitle := "Dan Does Code"
    siteUrl := "http://www.dandoescode.com/"
    excerptLength := 140 }

/-- Raw bytes of the spec's example file `content/blog/hello-world/index.md`. -/
def helloRaw : String :=
  "---\ntitle: \"Hello\"\ndate: \"2020-01-01\"\n---\n# Hi"

/-- A content tree holding only the spec's example file. -/
def helloFS : FileSystem :=
  { rootExists := true, files := [("blog/hello-world/index.md", helloRaw)] }

/-- The raw node the scanner emits for the spec's example file. -/
def helloNode : RawFileNode :=
  mkRawNode exampleConfig "blog/hello-world/index.md" Ext.md helloRaw

/-- An inert document used only as a match fallback. -/
def fallbackDoc : DocumentNode :=
  { id := "", frontMatter := { title := "", date := "", description := none }
    dateKey := 0, bodySource := "", renderedHtml := "", excerpt := ""
    slug := "", srcPath := "" }

/-- The document the Transformer produces for the spec's example file. -/
def helloDoc : DocumentNode :=
  match transform exampleConfig helloNode with
  | .ok d => d
  | .error _ => fallbackDoc

/-- A document dated 2020-01-01. -/
def docJan : DocumentNode :=
  { id := docIdOf "blog/jan/index.md"
    frontMatter := { title := "Jan", date := "2020-01-01", description := none }
    dateKey := 20200101, bodySource := "", renderedHtml := "", excerpt := ""
    slug := slugOf "blog/jan/index.md", srcPath := "blog/jan/index.md" }

/-- A document dated 2020-06-01. -/
def docJun : DocumentNode :=
  { id := docIdOf "blog/jun/index.md"
    frontMatter := { title := "Jun", date := "2020-06-01", description := none }
    dateKey := 20200601, bodySource := "", renderedHtml := "", excerpt := ""
    slug := slugOf "blog/jun/index.md", srcPath := "blog/jun/index.md" }

/-- A document dated 2019-12-01. -/
def docDec : DocumentNode :=
  { id := docIdOf "blog/dec/index.md"
    frontMatter := { title := "Dec", date := "2019-12-01", description := none }
    dateKey := 20191201, bodySource := "", renderedHtml := "", excerpt := ""
    slug := slugOf "blog/dec/index.md", srcPath := "blog/dec/index.md" }

/-- A document for the spec's collision example file `blog/a/index.md`. -/
def docCaseA : DocumentNode :=
  { id := docIdOf "blog/a/index.md"
    frontMatter := { title := "A", date := "2020-01-01", description := none }
    dateKey := 20200101, bodySource := "", renderedHtml := "", excerpt := ""
    slug := slugOf "blog/a/index.md", srcPath := "blog/a/index.md" }

/-- A document for the spec's collision example file `Blog/a/index.md`. -/
def docCaseB : DocumentNode :=
  { id := docIdOf "Blog/a/index.md"
    frontMatter := { title := "A2", date := "2020-01-02", description := none }
    dateKey := 20200102, bodySource := "", renderedHtml := "", excerpt := ""
    slug := slugOf "Blog/a/index.md", srcPath := "Blog/a/index.md" }

/-- Raw bytes of a malformed file whose front matter misses the required
`title` key. -/
def badRaw : String :=
  "---\ndate: \"2020-01-01\"\n---\nBody"

/-- The raw node the scanner emits for the malformed file. -/
def badNode : RawFileNode :=
  mkRawNode exampleConfig "blog/bad/index.md" Ext.md badRaw

/-! ## Supporting lemmas: list utilities -/

theorem mem_of_startsWithL : ∀ {l p : List Char}, startsWithL l p = true → ∀ c ∈ p, c ∈ l
  | _, [], _, c, hc => absurd hc (List.not_mem_nil c)
  | [], _ :: _, h, _, _ => by simp [startsWithL] at h
  | a :: as, b :: bs, h, c, hc => by
    simp [startsWithL] at h
    rcases List.mem_cons.1 hc with rfl | hc
    · exact h.1 ▸ List.mem_cons_self a as
    · exact List.mem_cons_of_mem a (mem_of_startsWithL h.2 c hc)

theorem mem_of_endsWithL {l s : List Char} (h : endsWithL l s = true) :
    ∀ c ∈ s, c ∈ l := by
  intro c hc
  have := mem_of_startsWithL h c (List.mem_reverse.2 hc)
  exact List.mem_reverse.1 this

theorem listLe_total : ∀ a b : List Char, listLe a b = true ∨ listLe b a = true
  | [], _ => Or.inl rfl
  | _ :: _, [] => Or.inr rfl
  | a :: as, b :: bs => by
    rcases Nat.lt_trichotomy a.toNat b.toNat with h | h | h
    · left; simp [listLe, h]
    · rcases listLe_total as bs with ih | ih
      · left; simp [listLe, h, ih]
      · right; simp [listLe, h.symm, ih]
    · right; simp [listLe, h]

theorem listLe_trans : ∀ a b c : List Char,
    listLe a b = true → listLe b c = true → listLe a c = true
  | [], _, _, _, _ => rfl
  | _ :: _, [], _, h, _ => by simp [listLe] at h
  | _ :: _, _ :: _, [], _, h => by simp [listLe] at h
  | a :: as, b :: bs, c :: cs, h₁, h₂ => by
    simp only [listLe, Bool.or_eq_true, Bool.and_eq_true, decide_eq_true_eq] at h₁ h₂ ⊢
    rcases h₁ with h₁ | ⟨e₁, l₁⟩
    · rcases h₂ with h₂ | ⟨e₂, l₂⟩
      · exact Or.inl (h₁.trans h₂)
      · exact Or.inl (e₂ ▸ h₁)
    · rcases h₂ with h₂ | ⟨e₂, l₂⟩
      · exact Or.inl (e₁ ▸ h₂)
      · exact Or.inr ⟨e₁.trans e₂, listLe_trans as bs cs l₁ l₂⟩

instance : IsTotal RawFileNode nodeLe :=
  ⟨fun a b => listLe_total a.relativePath.toList b.relativePath.toList⟩

instance : IsTrans RawFileNode nodeLe :=
  ⟨fun _ _ _ h₁ h₂ => listLe_trans _ _ _ h₁ h₂⟩

instance : IsTotal DocumentNode docBefore := by
  refine ⟨fun a b => ?_⟩
  unfold docBefore
  rcases Nat.lt_trichotomy a.dateKey b.dateKey with h | h | h
  · exact Or.inr (Or.inl h)
  · rcases listLe_total a.slug.toList b.slug.toList with hl | hl
    · exact Or.inl (Or.inr ⟨h, hl⟩)
    · exact Or.inr (Or.inr ⟨h.symm, hl⟩)
  · exact Or.inl (Or.inl h)

instance : IsTrans DocumentNode docBefore := by
  refine ⟨fun a b c h₁ h₂ => ?_⟩
  unfold docBefore at h₁ h₂ ⊢
  rcases h₁ with h₁ | ⟨e₁, l₁⟩
  · rcases h₂ with h₂ | ⟨e₂, l₂⟩
    · exact Or.inl (h₂.trans h₁)
    · exact Or.inl (e₂ ▸ h₁)
  · rcases h₂ with h₂ | ⟨e₂, l₂⟩
    · exact Or.inl (e₁ ▸ h₂)
    · exact Or.inr ⟨e₁.trans e₂, listLe_trans _ _ _ l₁ l₂⟩

/-! ## Supporting lemmas: slug normalization -/

theorem lowerChar_of_allowed {c : Char} (h : allowedChar c = true) : lowerChar c = c := by
  simp only [allowedChar, decide_eq_true_eq] at h
  unfold lowerChar
  rw [if_neg (by omega)]

theorem map_lowerChar_of_allowed : ∀ {l : List Char},
    (∀ c ∈ l, allowedChar c = true) → l.map lowerChar = l
  | [], _ => rfl
  | c :: cs, h => by
    simp only [List.map_cons]
    rw [lowerChar_of_allowed (h c (List.mem_cons_self c cs)),
      map_lowerChar_of_allowed (fun d hd => h d (List.mem_cons_of_mem c hd))]

theorem dot_not_allowed {l : List Char} (h : ∀ c ∈ l, allowedChar c = true) :
    '.' ∉ l := by
  intro hmem
  have := h '.' hmem
  simp [allowedChar] at this

theorem stripIndexExt_of_allowed {l : List Char}
    (h : ∀ c ∈ l, allowedChar c = true) : stripIndexExt l = l := by
  have hdot : '.' ∉ l := dot_not_allowed h
  unfold stripIndexExt
  rw [if_neg, if_neg, if_neg, if_neg]
  · intro hsuf
    exact hdot (mem_of_endsWithL hsuf '.' (by decide))
  · intro hsuf
    exact hdot (mem_of_endsWithL hsuf '.' (by decide))
  · intro hsuf
    exact hdot (mem_of_endsWithL hsuf '.' (by decide))
  · intro hsuf
    exact hdot (mem_of_endsWithL hsuf '.' (by decide))

theorem collapseSlashes_cons : ∀ (b : Char) (rest : List Char),
    ∃ t, collapseSlashes (b :: rest) = b :: t
  | b, [] => ⟨[], rfl⟩
  | b, c :: r => by
    rcases collapseSlashes_cons c r with ⟨t, ht⟩
    by_cases h : b = '/' ∧ c = '/'
    · refine ⟨t, ?_⟩
      rw [show collapseSlashes (b :: c :: r) = collapseSlashes (c :: r) from if_pos h, ht,
        h.1, h.2]
    · exact ⟨collapseSlashes (c :: r), if_neg h⟩

theorem noSlashRun_collapseSlashes : ∀ l : List Char,
    noSlashRun (collapseSlashes l) = true
  | [] => rfl
  | [_] => rfl
  | a :: b :: rest => by
    have ih := noSlashRun_collapseSlashes (b :: rest)
    by_cases h : a = '/' ∧ b = '/'
    · rw [show collapseSlashes (a :: b :: rest) = collapseSlashes (b :: rest) from if_pos h]
      exact ih
    · rw [show collapseSlashes (a :: b :: rest) = a :: collapseSlashes (b :: rest) from if_neg h]
      rcases collapseSlashes_cons b rest with ⟨t, ht⟩
      rw [ht]
      rw [ht] at ih
      simp only [noSlashRun, Bool.and_eq_true, Bool.not_eq_eq_eq_not, Bool.not_true]
      refine ⟨?_, ih⟩
      by_cases ha : a = '/'
      · have hb : ¬b = '/' := fun hb => h ⟨ha, hb⟩
        simp [ha, hb]
      · simp [ha]

theorem collapseSlashes_of_noSlashRun : ∀ {l : List Char},
    noSlashRun l = true → collapseSlashes l = l
  | [], _ => rfl
  | [_], _ => rfl
  | a :: b :: rest, h => by
    simp only [noSlashRun, Bool.and_eq_true, Bool.not_eq_eq_eq_not, Bool.not_true] at h
    have hnab : ¬(a = '/' ∧ b = '/') := by
      intro hab
      simp [hab.1, hab.2] at h
    rw [show collapseSlashes (a :: b :: rest) = a :: collapseSlashes (b :: rest) from
      if_neg hnab, collapseSlashes_of_noSlashRun h.2]

theorem mem_of_mem_collapseSlashes : ∀ {l : List Char} {c : Char},
    c ∈ collapseSlashes l → c ∈ l
  | [], _, h => h
  | [_], _, h => h
  | a :: b :: rest, c, h => by
    by_cases hab : a = '/' ∧ b = '/'
    · rw [show collapseSlashes (a :: b :: rest) = collapseSlashes (b :: rest) from
        if_pos hab] at h
      exact List.mem_cons_of_mem a (mem_of_mem_collapseSlashes h)
    · rw [show collapseSlashes (a :: b :: rest) = a :: collapseSlashes (b :: rest) from
        if_neg hab] at h
      rcases List.mem_cons.1 h with rfl | h
      · exact List.mem_cons_self c (b :: rest)
      · exact List.mem_cons_of_mem a (mem_of_mem_collapseSlashes h)

theorem allowed_of_mem_normalizeSlugL {p : List Char} {c : Char}
    (h : c ∈ normalizeSlugL p) : allowedChar c = true := by
  unfold normalizeSlugL at h
  exact List.of_mem_filter (mem_of_mem_collapseSlashes h)

theorem normalizeSlugL_idem (p : List Char) :
    normalizeSlugL (normalizeSlugL p) = normalizeSlugL p := by
  have hall : ∀ c ∈ normalizeSlugL p, allowedChar c = true :=
    fun c hc => allowed_of_mem_normalizeSlugL hc
  have h₁ : (normalizeSlugL p).map lowerChar = normalizeSlugL p :=
    map_lowerChar_of_allowed hall
  conv_lhs => rw [normalizeSlugL, h₁, stripIndexExt_of_allowed hall,
    List.filter_eq_self.2 hall]
  rw [normalizeSlugL]
  exact collapseSlashes_of_noSlashRun (noSlashRun_collapseSlashes _)

theorem slugOf_idem (p : String) : slugOf (slugOf p) = slugOf p := by
  unfold slugOf
  exact congrArg String.mk (normalizeSlugL_idem p.toList)

/-! ## Supporting lemmas: the Transformer -/

theorem transform_error_file {cfg : Config} {n : RawFileNode} {e : TransformError}
    (h : transform cfg n = .error e) : e.file = n.relativePath := by
  unfold transform at h
  cases ht : (parseFM n.rawBytes).1.lookup "title" with
  | none => rw [ht] at h; cases h; rfl
  | some title =>
    rw [ht] at h
    dsimp only at h
    cases hd : (parseFM n.rawBytes).1.lookup "date" with
    | none => rw [hd] at h; cases h; rfl
    | some dateStr =>
      rw [hd] at h
      dsimp only at h
      cases hp : parseDate dateStr with
      | none => rw [hp] at h; cases h; rfl
      | some dk => rw [hp] at h; cases h

theorem transform_ok_fields {cfg : Config} {n : RawFileNode} {d : DocumentNode}
    (h : transform cfg n = .ok d) :
    d.srcPath = n.relativePath ∧ d.id = docIdOf n.relativePath ∧
    d.slug = slugOf n.relativePath ∧ d.renderedHtml = renderMarkdown d.bodySource ∧
    d.excerpt = wordTruncateS cfg.excerptLength (plainTextOf d.bodySource) := by
  unfold transform at h
  cases ht : (parseFM n.rawBytes).1.lookup "title" with
  | none => rw [ht] at h; cases h
  | some title =>
    rw [ht] at h
    dsimp only at h
    cases hd : (parseFM n.rawBytes).1.lookup "date" with
    | none => rw [hd] at h; cases h
    | some dateStr =>
      rw [hd] at h
      dsimp only at h
      cases hp : parseDate dateStr with
      | none => rw [hp] at h; cases h
      | some dk =>
        rw [hp] at h
        dsimp only at h
        cases h
        exact ⟨rfl, rfl, rfl, rfl, rfl⟩

theorem transform_error_of_missing (cfg : Config) {n : RawFileNode}
    (h : (parseFM n.rawBytes).1.lookup "title" = none ∨
         (parseFM n.rawBytes).1.lookup "date" = none) :
    ∃ e, transform cfg n = .error e ∧ e.file = n.relativePath := by
  unfold transform
  cases ht : (parseFM n.rawBytes).1.lookup "title" with
  | none => exact ⟨_, rfl, rfl⟩
  | some title =>
    cases hd : (parseFM n.rawBytes).1.lookup "date" with
    | none => exact ⟨_, rfl, rfl⟩
    | some dateStr =>
      rcases h with h | h
      · rw [ht] at h; cases h
      · rw [hd] at h; cases h

theorem mem_transformAll_errs (cfg : Config) (e : TransformError) :
    ∀ ns : List RawFileNode,
      e ∈ (transformAll cfg ns).1 ↔ ∃ n ∈ ns, transform cfg n = .error e
  | [] => by simp [transformAll]
  | n :: ns => by
    have ih := mem_transformAll_errs cfg e ns
    cases h : transform cfg n with
    | error e' =>
      simp only [transformAll, h, List.mem_cons, ih]
      constructor
      · rintro (rfl | ⟨m, hm, hme⟩)
        · exact ⟨n, Or.inl rfl, h⟩
        · exact ⟨m, Or.inr hm, hme⟩
      · rintro ⟨m, rfl | hm, hme⟩
        · rw [h] at hme; cases hme; exact Or.inl rfl
        · exact Or.inr ⟨m, hm, hme⟩
    | ok d =>
      simp only [transformAll, h, List.mem_cons, ih]
      constructor
      · rintro ⟨m, hm, hme⟩
        exact ⟨m, Or.inr hm, hme⟩
      · rintro ⟨m, rfl | hm, hme⟩
        · rw [h] at hme; cases hme
        · exact ⟨m, hm, hme⟩

theorem mem_transformAll_docs (cfg : Config) (d : DocumentNode) :
    ∀ ns : List RawFileNode,
      d ∈ (transformAll cfg ns).2 ↔ ∃ n ∈ ns, transform cfg n = .ok d
  | [] => by simp [transformAll]
  | n :: ns => by
    have ih := mem_transformAll_docs cfg d ns
    cases h : transform cfg n with
    | error e' =>
      simp only [transformAll, h, List.mem_cons, ih]
      constructor
      · rintro ⟨m, hm, hme⟩
        exact ⟨m, Or.inr hm, hme⟩
      · rintro ⟨m, rfl | hm, hme⟩
        · rw [h] at hme; cases hme
        · exact ⟨m, hm, hme⟩
    | ok d' =>
      simp only [transformAll, h, List.mem_cons, ih]
      constructor
      · rintro (rfl | ⟨m, hm, hme⟩)
        · exact ⟨n, Or.inl rfl, h⟩
        · exact ⟨m, Or.inr hm, hme⟩
      · rintro ⟨m, rfl | hm, hme⟩
        · rw [h] at hme; cases hme; exact Or.inl rfl
        · exact Or.inr ⟨m, hm, hme⟩

/-! ## Supporting lemmas: the Resolver -/

theorem findCollision_eq_none_iff : ∀ docs : List DocumentNode,
    findCollision docs = none ↔ (docs.map DocumentNode.slug).Nodup
  | [] => by simp [findCollision]
  | d :: ds => by
    have ih := findCollision_eq_none_iff ds
    cases h : ds.find? (fun e => e.slug = d.slug) with
    | some e =>
      simp only [findCollision, h]
      constructor
      · intro he; cases he
      · intro hnd
        have hmem := List.mem_of_find?_eq_some h
        have hp := List.find?_some h
        simp only [decide_eq_true_eq] at hp
        exfalso
        have : d.slug ∈ ds.map DocumentNode.slug :=
          List.mem_map.2 ⟨e, hmem, hp⟩
        simp only [List.map_cons, List.nodup_cons] at hnd
        exact hnd.1 this
    | none =>
      simp only [findCollision, h, ih, List.map_cons, List.nodup_cons]
      constructor
      · intro hnd
        refine ⟨?_, hnd⟩
        intro hmem
        rcases List.mem_map.1 hmem with ⟨e, he, hes⟩
        have := List.find?_eq_none.1 h e he
        simp [hes] at this
      · intro hnd; exact hnd.2

theorem findCollision_some_spec : ∀ {docs : List DocumentNode} {ab : String × String},
    findCollision docs = some ab →
    ∃ l₁ x l₂ y l₃, docs = l₁ ++ x :: (l₂ ++ y :: l₃) ∧
      ab.1 = x.srcPath ∧ ab.2 = y.srcPath ∧ x.slug = y.slug
  | [], _, h => by simp [findCollision] at h
  | d :: ds, ab, h => by
    cases hf : ds.find? (fun e => e.slug = d.slug) with
    | some e =>
      simp only [findCollision, hf] at h
      cases h
      have hmem := List.mem_of_find?_eq_some hf
      have hp := List.find?_some hf
      simp only [decide_eq_true_eq] at hp
      rcases List.append_of_mem hmem with ⟨s, t, rfl⟩
      exact ⟨[], d, s, e, t, rfl, rfl, rfl, hp.symm⟩
    | none =>
      simp only [findCollision, hf] at h
      rcases findCollision_some_spec h with ⟨l₁, x, l₂, y, l₃, rfl, h₁, h₂, h₃⟩
      exact ⟨d :: l₁, x, l₂, y, l₃, rfl, h₁, h₂, h₃⟩

theorem resolvePages_ok_iff (docs : List DocumentNode) :
    (∃ pages, resolvePages docs = .ok pages) ↔ (docs.map DocumentNode.slug).Nodup := by
  unfold resolvePages
  cases h : findCollision docs with
  | some ab =>
    simp only []
    constructor
    · rintro ⟨pages, hp⟩; cases hp
    · intro hnd
      rw [(findCollision_eq_none_iff docs).2 hnd] at h
      cases h
  | none =>
    simp only []
    constructor
    · intro _; exact (findCollision_eq_none_iff docs).1 h
    · intro _; exact ⟨_, rfl⟩

theorem resolvePages_ok_shape {docs : List DocumentNode} {pages : List PageDescriptor}
    (h : resolvePages docs = .ok pages) :
    pages = (List.insertionSort docBefore docs).map mkDescriptor ∧
    (docs.map DocumentNode.slug).Nodup := by
  unfold resolvePages at h
  cases hf : findCollision docs with
  | some ab => rw [hf] at h; cases h
  | none =>
    rw [hf] at h
    cases h
    exact ⟨rfl, (findCollision_eq_none_iff docs).1 hf⟩

/-! ## Supporting lemmas: the Scanner -/

theorem scan_error_iff (cfg : Config) (fs : FileSystem) :
    (∃ e, scan cfg fs = .error e) ↔ fs.rootExists = false := by
  unfold scan
  cases h : fs.rootExists with
  | false =>
    constructor
    · intro _; rfl
    · intro _
      exact ⟨{ root := cfg.contentRoot }, by simp⟩
  | true =>
    constructor
    · rintro ⟨e, he⟩
      simp at he
    · intro hf
      cases hf

theorem map_relativePath_filterMap (cfg : Config) : ∀ files : List (String × String),
    (files.filterMap (fun pc =>
      (acceptedExt pc.1).map (fun e => mkRawNode cfg pc.1 e pc.2))).map
        RawFileNode.relativePath
      = (files.filter (fun pc => (acceptedExt pc.1).isSome)).map Prod.fst
  | [] => rfl
  | pc :: rest => by
    have ih := map_relativePath_filterMap cfg rest
    cases h : acceptedExt pc.1 with
    | none => simpa [List.filterMap_cons, List.filter_cons, h] using ih
    | some e => simpa [List.filterMap_cons, List.filter_cons, h, mkRawNode] using ih

theorem scan_ok_spec {cfg : Config} {fs : FileSystem} {ns : List RawFileNode}
    (h : scan cfg fs = .ok ns) :
    List.Sorted nodeLe ns ∧
    List.Perm (ns.map RawFileNode.relativePath)
      ((fs.files.filter (fun pc => (acceptedExt pc.1).isSome)).map Prod.fst) := by
  unfold scan at h
  cases hr : fs.rootExists with
  | false => rw [hr] at h; cases h
  | true =>
    rw [hr] at h
    simp only [if_true] at h
    cases h
    refine ⟨List.sorted_insertionSort nodeLe _, ?_⟩
    have hperm : List.Perm
        ((List.insertionSort nodeLe (fs.files.filterMap (fun pc =>
          (acceptedExt pc.1).map (fun e => mkRawNode cfg pc.1 e pc.2)))).map
            RawFileNode.relativePath)
        ((fs.files.filterMap (fun pc =>
          (acceptedExt pc.1).map (fun e => mkRawNode cfg pc.1 e pc.2))).map
            RawFileNode.relativePath) :=
      (List.perm_insertionSort nodeLe _).map RawFileNode.relativePath
    rw [map_relativePath_filterMap cfg fs.files] at hperm
    exact hperm

/-! ## Supporting lemmas: excerpts -/

theorem dropWhile_append_eq (p : Char → Bool) : ∀ l : List Char,
    ∃ u, l = u ++ l.dropWhile p
  | [] => ⟨[], rfl⟩
  | c :: cs => by
    cases h : p c with
    | false => exact ⟨[], by simp [List.dropWhile_cons, h]⟩
    | true =>
      rcases dropWhile_append_eq p cs with ⟨u, hu⟩
      exact ⟨c :: u, by simp [List.dropWhile_cons, h]; exact hu⟩

theorem dropWhile_cons_head (p : Char → Bool) : ∀ {l : List Char} {c : Char} {t : List Char},
    l.dropWhile p = c :: t → p c = false
  | [], c, t, h => by cases h
  | a :: as, c, t, h => by
    cases hp : p a with
    | false =>
      rw [List.dropWhile_cons, hp] at h
      simp only [Bool.false_eq_true, if_false] at h
      cases h; exact hp
    | true =>
      rw [List.dropWhile_cons, hp] at h
      simp only [if_true] at h
      exact dropWhile_cons_head p h

theorem dropTrailingWord_append (l : List Char) :
    ∃ t, l = dropTrailingWord l ++ t := by
  unfold dropTrailingWord
  rcases dropWhile_append_eq (fun c => c ≠ ' ') l.reverse with ⟨u, hu⟩
  refine ⟨u.reverse, ?_⟩
  have := congrArg List.reverse hu
  rw [List.reverse_reverse, List.reverse_append] at this
  exact this

theorem dropTrailingWord_getLastD (l : List Char) :
    (dropTrailingWord l).getLastD ' ' = ' ' := by
  unfold dropTrailingWord
  cases h : l.reverse.dropWhile (fun c => c ≠ ' ') with
  | nil => rfl
  | cons c t =>
    have hc := dropWhile_cons_head (fun c => c ≠ ' ') h
    have hc' : c = ' ' := by
      by_contra hne
      simp [hne] at hc
    subst hc'
    rw [List.getLastD_eq_getLast?, List.getLast?_reverse]
    rfl

theorem dropTrailingWord_length (l : List Char) :
    (dropTrailingWord l).length ≤ l.length := by
  rcases dropTrailingWord_append l with ⟨t, ht⟩
  conv_rhs => rw [ht]
  simp

theorem wordTruncateL_eq_of_le {n : Nat} {s : List Char} (h : s.length ≤ n) :
    wordTruncateL n s = s := by
  unfold wordTruncateL
  rw [if_pos h]

theorem wordTruncateL_append (n : Nat) (s : List Char) :
    ∃ t, s = wordTruncateL n s ++ t := by
  unfold wordTruncateL
  by_cases h : s.length ≤ n
  · rw [if_pos h]; exact ⟨[], (List.append_nil s).symm⟩
  · rw [if_neg h]
    by_cases hb : s.getD n ' ' = ' '
    · rw [if_pos hb]
      exact ⟨s.drop n, (List.take_append_drop n s).symm⟩
    · rw [if_neg hb]
      rcases dropTrailingWord_append (s.take n) with ⟨t, ht⟩
      refine ⟨t ++ s.drop n, ?_⟩
      conv_lhs => rw [← List.take_append_drop n s, ht]
      rw [List.append_assoc]

theorem wordTruncateL_length {n : Nat} {s : List Char} (h : n < s.length) :
    (wordTruncateL n s).length ≤ n := by
  unfold wordTruncateL
  rw [if_neg (by omega)]
  by_cases hb : s.getD n ' ' = ' '
  · rw [if_pos hb]
    simp [List.length_take]
  · rw [if_neg hb]
    calc (dropTrailingWord (s.take n)).length ≤ (s.take n).length :=
          dropTrailingWord_length _
      _ ≤ n := by simp [List.length_take]

theorem wordTruncateL_boundary (n : Nat) (s : List Char) :
    wordTruncateL n s = s ∨ s.getD (wordTruncateL n s).length ' ' = ' ' ∨
      (wordTruncateL n s).getLastD ' ' = ' ' := by
  unfold wordTruncateL
  by_cases h : s.length ≤ n
  · rw [if_pos h]; exact Or.inl rfl
  · rw [if_neg h]
    by_cases hb : s.getD n ' ' = ' '
    · rw [if_pos hb]
      refine Or.inr (Or.inl ?_)
      rw [List.length_take]
      rw [Nat.min_eq_left (by omega)]
      exact hb
    · rw [if_neg hb]
      exact Or.inr (Or.inr (dropTrailingWord_getLastD _))

/-! ## Supporting lemmas: document identifiers and the build -/

theorem docIdOf_inj {p q : String} (h : docIdOf p = docIdOf q) : p = q := by
  unfold docIdOf at h
  have hd := congrArg String.data h
  simp only [String.data_append] at hd
  exact String.ext (List.append_cancel_left hd)

theorem build_scan_failed {cfg : Config} {fs : FileSystem}
    (h : fs.rootExists = false) :
    (build cfg fs).scanErr = some { root := cfg.contentRoot } ∧
    (build cfg fs).transformErrs = [] ∧
    (build cfg fs).pages = none ∧
    (build cfg fs).exitCode ≠ 0 := by
  have hb : build cfg fs =
      { scanErr := some { root := cfg.contentRoot }, transformErrs := [],
        resolveErr := none, pages := none, exitCode := 1 } := by
    unfold build scan
    rw [h]
    rfl
  rw [hb]
  exact ⟨rfl, rfl, rfl, by simp⟩

theorem build_scan_ok {cfg : Config} {fs : FileSystem} {ns : List RawFileNode}
    (h : scan cfg fs = .ok ns) :
    (build cfg fs).transformErrs = (transformAll cfg ns).1 ∧
    (∀ re, resolvePages (transformAll cfg ns).2 = .error re →
      (build cfg fs).resolveErr = some re ∧ (build cfg fs).pages = none ∧
      (build cfg fs).exitCode ≠ 0) ∧
    (∀ ps, resolvePages (transformAll cfg ns).2 = .ok ps →
      (build cfg fs).pages = some ps ∧ (build cfg fs).exitCode = 0) := by
  unfold build
  rw [h]
  dsimp only
  cases hr : resolvePages (transformAll cfg ns).2 with
  | error re =>
    refine ⟨rfl, ?_, ?_⟩
    · intro re' hre'
      cases hre'
      exact ⟨rfl, rfl, by simp⟩
    · intro ps hps
      cases hps
  | ok ps =>
    refine ⟨rfl, ?_, ?_⟩
    · intro re' hre'
      cases hre'
    · intro ps' hps'
      cases hps'
      exact ⟨rfl, rfl⟩

theorem build_pages_none_exit {cfg : Config} {fs : FileSystem}
    (h : (build cfg fs).pages = none) : (build cfg fs).exitCode ≠ 0 := by
  unfold build at h ⊢
  cases hs : scan cfg fs with
  | error e => simp
  | ok ns =>
    rw [hs] at h
    dsimp only at h ⊢
    cases hr : resolvePages (transformAll cfg ns).2 with
    | error re => simp
    | ok ps =>
      rw [hr] at h
      dsimp only at h
      cases h

/-! ## Claim theorems -/

/-- C1: for the input file `content/blog/hello-world/index.md` with
front-matter title "Hello", date "2020-01-01" and body "# Hi", the pipeline
yields slug `blog/hello-world`, a page descriptor with the BlogPost
template, and rendered HTML containing an `<h1>` element wrapping "Hi". -/
theorem c1_hello_world_pipeline :
    ∃ node d,
      scan exampleConfig helloFS = .ok [node] ∧
      transform exampleConfig node = .ok d ∧
      d.slug = "blog/hello-world" ∧
      (mkDescriptor d).route = "blog/hello-world" ∧
      (mkDescriptor d).templateName = TemplateName.BlogPost ∧
      containsSubS "<h1>Hi</h1>" d.renderedHtml = true := by
  refine ⟨helloNode, helloDoc, rfl, rfl, ?_, ?_, ?_, ?_⟩ <;> decide

/-- C2: a slug collision between two distinct documents makes the Page
Resolver fail with a ResolutionError naming both colliding source files,
a build whose resolver failed produces no page set and exits non-zero, and
every successfully produced page set has pairwise distinct routes. -/
theorem c2_slug_collision_fatal :
    (∀ docs : List DocumentNode, docs.Nodup →
      (∃ d₁ ∈ docs, ∃ d₂ ∈ docs, d₁ ≠ d₂ ∧ d₁.slug = d₂.slug) →
      ∃ e, resolvePages docs = .error e ∧
        ∃ x ∈ docs, ∃ y ∈ docs, x ≠ y ∧ x.slug = y.slug ∧
          e.fileA = x.srcPath ∧ e.fileB = y.srcPath) ∧
    (∀ cfg fs re, (build cfg fs).resolveErr = some re →
      (build cfg fs).pages = none ∧ (build cfg fs).exitCode ≠ 0) ∧
    (∀ docs pages, resolvePages docs = .ok pages →
      (pages.map PageDescriptor.route).Nodup) := by
  refine ⟨?_, ?_, ?_⟩
  · intro docs hnd ⟨d₁, h₁, d₂, h₂, hne, hslug⟩
    have hcol : ¬(docs.map DocumentNode.slug).Nodup := by
      intro hmap
      exact hne (List.inj_on_of_nodup_map hmap h₁ h₂ hslug)
    cases hf : findCollision docs with
    | none => exact absurd ((findCollision_eq_none_iff docs).1 hf) hcol
    | some ab =>
      rcases findCollision_some_spec hf with ⟨l₁, x, l₂, y, l₃, hsplit, ha, hb, hxy⟩
      have hx : x ∈ docs := by rw [hsplit]; simp
      have hy : y ∈ docs := by rw [hsplit]; simp
      have hxney : x ≠ y := by
        intro heq
        rw [hsplit] at hnd
        have h₂' := hnd.of_append_right
        have h₃' := (List.nodup_cons.1 h₂').1
        apply h₃'
        rw [heq]
        simp
      refine ⟨{ fileA := ab.1, fileB := ab.2 }, ?_, x, hx, y, hy, hxney, hxy, ha, hb⟩
      unfold resolvePages
      rw [hf]
  · intro cfg fs re h
    unfold build at h ⊢
    cases hs : scan cfg fs with
    | error e =>
      rw [hs] at h
      cases h
    | ok ns =>
      rw [hs] at h
      dsimp only at h ⊢
      cases hr : resolvePages (transformAll cfg ns).2 with
      | error re' =>
        exact ⟨rfl, by simp⟩
      | ok ps =>
        rw [hr] at h
        dsimp only at h
        cases h
  · intro docs pages h
    rcases resolvePages_ok_shape h with ⟨rfl, hnd⟩
    rw [List.map_map]
    have hperm : List.Perm
        ((List.insertionSort docBefore docs).map (PageDescriptor.route ∘ mkDescriptor))
        (docs.map (PageDescriptor.route ∘ mkDescriptor)) :=
      (List.perm_insertionSort docBefore docs).map _
    rw [hperm.nodup_iff]
    exact hnd

/-- C2 witness: the spec's case-differing example files `blog/a/index.md`
and `Blog/a/index.md` both normalize to slug `blog/a` and make the
resolver fail with both paths reported. -/
theorem c2_witness :
    ∃ e, resolvePages [docCaseA, docCaseB] = .error e ∧
      ∃ x ∈ [docCaseA, docCaseB], ∃ y ∈ [docCaseA, docCaseB],
        x ≠ y ∧ x.slug = y.slug ∧ e.fileA = x.srcPath ∧ e.fileB = y.srcPath :=
  c2_slug_collision_fatal.1 [docCaseA, docCaseB] (by decide)
    ⟨docCaseA, by simp, docCaseB, by simp, by decide, by decide⟩

/-- C3: a file whose front matter misses the required `title` key — or,
identically, the required `date` key — yields a TransformError naming that
file, is excluded from the produced document set and from the final route
list, while every other file is still processed. -/
theorem c3_missing_required_key (cfg : Config) (ns : List RawFileNode)
    (n : RawFileNode) (hmem : n ∈ ns)
    (hnodup : (ns.map RawFileNode.relativePath).Nodup)
    (hmiss : (parseFM n.rawBytes).1.lookup "title" = none ∨
             (parseFM n.rawBytes).1.lookup "date" = none) :
    (∃ e ∈ (transformAll cfg ns).1, e.file = n.relativePath) ∧
    (∀ d ∈ (transformAll cfg ns).2, d.srcPath ≠ n.relativePath) ∧
    (∀ m ∈ ns, ∀ d, transform cfg m = .ok d → d ∈ (transformAll cfg ns).2) ∧
    (∀ pages, resolvePages (transformAll cfg ns).2 = .ok pages →
      ∀ pd ∈ pages, pd.documentId ≠ docIdOf n.relativePath) := by
  rcases transform_error_of_missing cfg hmiss with ⟨e, he, hef⟩
  have hexcl : ∀ d ∈ (transformAll cfg ns).2, d.srcPath ≠ n.relativePath := by
    intro d hd heq
    rcases (mem_transformAll_docs cfg d ns).1 hd with ⟨m, hm, hok⟩
    have hsrc := (transform_ok_fields hok).1
    have hmn : m ≠ n := by
      intro hmn
      rw [hmn, he] at hok
      cases hok
    exact hmn (List.inj_on_of_nodup_map hnodup hm hmem (by rw [← hsrc, heq]))
  refine ⟨⟨e, (mem_transformAll_errs cfg e ns).2 ⟨n, hmem, he⟩, hef⟩, hexcl, ?_, ?_⟩
  · intro m hm d hok
    exact (mem_transformAll_docs cfg d ns).2 ⟨m, hm, hok⟩
  · intro pages hres pd hpd heq
    rcases resolvePages_ok_shape hres with ⟨rfl, _⟩
    rcases List.mem_map.1 hpd with ⟨d, hd, rfl⟩
    have hd' : d ∈ (transformAll cfg ns).2 := List.mem_insertionSort docBefore |>.1 hd
    rcases (mem_transformAll_docs cfg d ns).1 hd' with ⟨m, hm, hok⟩
    rcases transform_ok_fields hok with ⟨hsrc, hid, _⟩
    have : d.srcPath = n.relativePath := by
      have := @docIdOf_inj m.relativePath n.relativePath (by rw [← hid]; exact heq)
      rw [hsrc, this]
    exact hexcl d hd' this

/-- C3 witness: in a two-file tree where `blog/bad/index.md` misses its
title, that file is reported and excluded while the good file is kept. -/
theorem c3_witness :
    (∃ e ∈ (transformAll exampleConfig [badNode, helloNode]).1,
      e.file = badNode.relativePath) ∧
    (∀ d ∈ (transformAll exampleConfig [badNode, helloNode]).2,
      d.srcPath ≠ badNode.relativePath) ∧
    (∀ m ∈ [badNode, helloNode], ∀ d, transform exampleConfig m = .ok d →
      d ∈ (transformAll exampleConfig [badNode, helloNode]).2) ∧
    (∀ pages, resolvePages (transformAll exampleConfig [badNode, helloNode]).2 = .ok pages →
      ∀ pd ∈ pages, pd.documentId ≠ docIdOf badNode.relativePath) :=
  c3_missing_required_key exampleConfig [badNode, helloNode] badNode
    (by simp) (by decide) (Or.inl (by decide))

/-- C4: the resolver's successful output is the input documents reordered
into a sequence sorted by strictly descending date with ties broken by
ascending slug; on documents dated 2020-01-01, 2020-06-01 and 2019-12-01
it emits them in the order June, January, December. -/
theorem c4_blog_listing_order :
    (∀ docs pages, resolvePages docs = .ok pages →
      ∃ sorted, List.Perm docs sorted ∧ List.Sorted docBefore sorted ∧
        pages = sorted.map mkDescriptor) ∧
    (∃ ps, resolvePages [docJan, docJun, docDec] = .ok ps ∧
      ps.map PageDescriptor.documentId = [docJun.id, docJan.id, docDec.id]) := by
  constructor
  · intro docs pages h
    rcases resolvePages_ok_shape h with ⟨rfl, _⟩
    exact ⟨List.insertionSort docBefore docs,
      (List.perm_insertionSort docBefore docs).symm,
      List.sorted_insertionSort docBefore docs, rfl⟩
  · exact ⟨(List.insertionSort docBefore [docJan, docJun, docDec]).map mkDescriptor,
      rfl, by decide⟩

/-- C4 witness: the ordering contract instantiated on the three concrete
dated documents. -/
theorem c4_witness :
    ∃ sorted, List.Perm [docJan, docJun, docDec] sorted ∧
      List.Sorted docBefore sorted ∧
      (List.insertionSort docBefore [docJan, docJun, docDec]).map mkDescriptor =
        sorted.map mkDescriptor :=
  c4_blog_listing_order.1 [docJan, docJun, docDec]
    ((List.insertionSort docBefore [docJan, docJun, docDec]).map mkDescriptor) rfl

/-- C5: the Transformer is deterministic — two runs on the same scanned
node yield byte-identical rendered HTML and slug. -/
theorem c5_transform_deterministic (cfg : Config) (n : RawFileNode)
    (d₁ d₂ : DocumentNode)
    (h₁ : transform cfg n = .ok d₁) (h₂ : transform cfg n = .ok d₂) :
    d₁.renderedHtml = d₂.renderedHtml ∧ d₁.slug = d₂.slug := by
  rw [h₁] at h₂
  cases h₂
  exact ⟨rfl, rfl⟩

/-- C5 witness: determinism instantiated on the example file. -/
theorem c5_witness :
    helloDoc.renderedHtml = helloDoc.renderedHtml ∧ helloDoc.slug = helloDoc.slug :=
  c5_transform_deterministic exampleConfig helloNode helloDoc helloDoc rfl rfl

/-- C6: slug normalization is idempotent, and over any document set the
resolver accepts, slug derivation is injective on source paths — no two
distinct relative paths yield equal slugs without a ResolutionError. -/
theorem c6_slug_idempotent_injective :
    (∀ p : String, slugOf (slugOf p) = slugOf p) ∧
    (∀ docs pages, (∀ d ∈ docs, d.slug = slugOf d.srcPath) →
      resolvePages docs = .ok pages →
      ∀ d₁ ∈ docs, ∀ d₂ ∈ docs,
        slugOf d₁.srcPath = slugOf d₂.srcPath → d₁.srcPath = d₂.srcPath) := by
  constructor
  · exact slugOf_idem
  · intro docs pages hs hok d₁ h₁ d₂ h₂ heq
    rcases resolvePages_ok_shape hok with ⟨_, hnd⟩
    have hdd : d₁ = d₂ :=
      List.inj_on_of_nodup_map hnd h₁ h₂ (by rw [hs d₁ h₁, hs d₂ h₂, heq])
    rw [hdd]

/-- C6 witness: idempotence at the example path and injectivity over an
accepted two-document set. -/
theorem c6_witness :
    slugOf (slugOf "blog/hello-world/index.md") = slugOf "blog/hello-world/index.md" ∧
    (∀ d₁ ∈ [docJan, docJun], ∀ d₂ ∈ [docJan, docJun],
      slugOf d₁.srcPath = slugOf d₂.srcPath → d₁.srcPath = d₂.srcPath) :=
  ⟨c6_slug_idempotent_injective.1 "blog/hello-world/index.md",
   c6_slug_idempotent_injective.2 [docJan, docJun]
     ((List.insertionSort docBefore [docJan, docJun]).map mkDescriptor)
     (by decide) rfl⟩

/-- C7: the scanner fails with a ScanError exactly when the root is
missing, and on success it emits one node per accepted file in
lexicographic order of relative paths while skipping files with
unsupported extensions. -/
theorem c7_scanner_contract (cfg : Config) (fs : FileSystem) :
    ((∃ e, scan cfg fs = .error e) ↔ fs.rootExists = false) ∧
    (∀ ns, scan cfg fs = .ok ns →
      List.Sorted nodeLe ns ∧
      List.Perm (ns.map RawFileNode.relativePath)
        ((fs.files.filter (fun pc => (acceptedExt pc.1).isSome)).map Prod.fst) ∧
      (∀ pc ∈ fs.files, acceptedExt pc.1 = none →
        pc.1 ∉ ns.map RawFileNode.relativePath)) := by
  refine ⟨scan_error_iff cfg fs, ?_⟩
  intro ns h
  rcases scan_ok_spec h with ⟨hs, hperm⟩
  refine ⟨hs, hperm, ?_⟩
  intro pc hpc hext hmem
  have hmem' : pc.1 ∈ (fs.files.filter (fun pc => (acceptedExt pc.1).isSome)).map Prod.fst :=
    hperm.mem_iff.1 hmem
  rcases List.mem_map.1 hmem' with ⟨qc, hq, hqe⟩
  have hqf := List.of_mem_filter hq
  rw [hqe, hext] at hqf
  cases hqf

/-- C7 witness: the scanner contract instantiated on the example tree. -/
theorem c7_witness :
    List.Sorted nodeLe [helloNode] ∧
    List.Perm ([helloNode].map RawFileNode.relativePath)
      ((helloFS.files.filter (fun pc => (acceptedExt pc.1).isSome)).map Prod.fst) ∧
    (∀ pc ∈ helloFS.files, acceptedExt pc.1 = none →
      pc.1 ∉ [helloNode].map RawFileNode.relativePath) :=
  (c7_scanner_contract exampleConfig helloFS).2 [helloNode] rfl

/-- C8: transform errors accumulate across all files before resolution, a
missing root aborts the build immediately with no transforms attempted, a
failed build carries the full error report and exits non-zero. -/
theorem c8_error_accumulation (cfg : Config) (fs : FileSystem) :
    (∀ ns (n : RawFileNode) e, n ∈ ns → transform cfg n = .error e →
      e ∈ (transformAll cfg ns).1) ∧
    (fs.rootExists = false →
      (build cfg fs).scanErr = some { root := cfg.contentRoot } ∧
      (build cfg fs).transformErrs = [] ∧
      (build cfg fs).pages = none ∧ (build cfg fs).exitCode ≠ 0) ∧
    (∀ ns, scan cfg fs = .ok ns →
      (build cfg fs).transformErrs = (transformAll cfg ns).1 ∧
      (∀ re, resolvePages (transformAll cfg ns).2 = .error re →
        (build cfg fs).resolveErr = some re ∧ (build cfg fs).pages = none ∧
        (build cfg fs).exitCode ≠ 0)) ∧
    ((build cfg fs).pages = none → (build cfg fs).exitCode ≠ 0) := by
  refine ⟨?_, fun h => build_scan_failed h, ?_, fun h => build_pages_none_exit h⟩
  · intro ns n e hm he
    exact (mem_transformAll_errs cfg e ns).2 ⟨n, hm, he⟩
  · intro ns h
    rcases build_scan_ok h with ⟨h1, h2, _⟩
    exact ⟨h1, h2⟩

/-- C8 witness: a build over a missing root aborts with an empty transform
report and a non-zero exit code. -/
theorem c8_witness :
    (build exampleConfig { rootExists := false, files := [] }).scanErr =
      some { root := exampleConfig.contentRoot } ∧
    (build exampleConfig { rootExists := false, files := [] }).transformErrs = [] ∧
    (build exampleConfig { rootExists := false, files := [] }).pages = none ∧
    (build exampleConfig { rootExists := false, files := [] }).exitCode ≠ 0 :=
  (c8_error_accumulation exampleConfig { rootExists := false, files := [] }).2.1 rfl

/-- C9: every produced document's excerpt is the word-boundary-safe
truncation of the rendered plain text to the configured excerpt length: it
is a prefix of the plain text, fits the length bound, and never ends in
the middle of a word. -/
theorem c9_excerpt_word_boundary (cfg : Config) (n : RawFileNode)
    (d : DocumentNode) (h : transform cfg n = .ok d) :
    d.excerpt = wordTruncateS cfg.excerptLength (plainTextOf d.bodySource) ∧
    (∃ t, (plainTextOf d.bodySource).toList = d.excerpt.toList ++ t) ∧
    ((plainTextOf d.bodySource).toList.length ≤ cfg.excerptLength →
      d.excerpt = plainTextOf d.bodySource) ∧
    (cfg.excerptLength < (plainTextOf d.bodySource).toList.length →
      d.excerpt.toList.length ≤ cfg.excerptLength) ∧
    (d.excerpt.toList = (plainTextOf d.bodySource).toList ∨
      (plainTextOf d.bodySource).toList.getD d.excerpt.toList.length ' ' = ' ' ∨
      d.excerpt.toList.getLastD ' ' = ' ') := by
  have hex := (transform_ok_fields h).2.2.2.2
  refine ⟨hex, ?_, ?_, ?_, ?_⟩
  · rw [hex]
    exact wordTruncateL_append cfg.excerptLength (plainTextOf d.bodySource).toList
  · intro hle
    rw [hex]
    show String.mk (wordTruncateL cfg.excerptLength (plainTextOf d.bodySource).toList) = _
    rw [wordTruncateL_eq_of_le hle]
    exact String.ext rfl
  · intro hlt
    rw [hex]
    exact wordTruncateL_length hlt
  · rw [hex]
    rcases wordTruncateL_boundary cfg.excerptLength (plainTextOf d.bodySource).toList
      with hb | hb | hb
    · exact Or.inl hb
    · exact Or.inr (Or.inl hb)
    · exact Or.inr (Or.inr hb)

/-- C9 witness: the excerpt contract instantiated on the example file. -/
theorem c9_witness :
    helloDoc.excerpt =
      wordTruncateS exampleConfig.excerptLength (plainTextOf helloDoc.bodySource) ∧
    (∃ t, (plainTextOf helloDoc.bodySource).toList = helloDoc.excerpt.toList ++ t) ∧
    ((plainTextOf helloDoc.bodySource).toList.length ≤ exampleConfig.excerptLength →
      helloDoc.excerpt = plainTextOf helloDoc.bodySource) ∧
    (exampleConfig.excerptLength < (plainTextOf helloDoc.bodySource).toList.length →
      helloDoc.excerpt.toList.length ≤ exampleConfig.excerptLength) ∧
    (helloDoc.excerpt.toList = (plainTextOf helloDoc.bodySource).toList ∨
      (plainTextOf helloDoc.bodySource).toList.getD helloDoc.excerpt.toList.length ' ' = ' ' ∨
      helloDoc.excerpt.toList.getLastD ' ' = ' ') :=
  c9_excerpt_word_boundary exampleConfig helloNode helloDoc rfl

/-- C10: the two source variants of the Social component render the same
four anchors with the same hrefs, labels, separators and order, differing
only in the wrapper element — `div` in one variant and `span` in the
other. -/
theorem c10_social_variants_equivalent (social : SocialProps) :
    SocialDiv social = Html.elem "div" [] (socialChildrenSpec social) ∧
    SocialSpan social = Html.elem "span" [] (socialChildrenSpec social) :=
  ⟨rfl, rfl⟩

end Blog
